import Mathlib

/-!
Verification of the fixed-income trading pipeline (SWE_MTH9815).

This file is a shallow embedding, in Lean 4, of the computational core of the
trading system under `src/tradingsystem/`: the order-book best-bid/offer scan
and depth aggregation (`marketdataservice.hpp`), the spread-crossing execution
logic (`algoexecutionservice.hpp`), the execution-to-trade booking bridge
(`tradebookingservice.hpp`), cross-book position netting
(`positionservice.hpp`), PV01 risk calculation (`riskservice.hpp`,
`utils/utils.hpp`), and the inquiry lifecycle (`inquiryservice.hpp`).

Modelling conventions:
- C++ `double` values (prices, PV01 factors) are modelled as exact rationals
  `ℚ`; `long` quantities and counters as `ℤ` or `ℕ` (counters only ever hold
  the values 0, 1, 2, ... reached by `++` from 0).
- `std::unordered_map` / `std::map` keyed stores are modelled as association
  lists `List (K × V)` with at most one live binding per key ("find then
  update in place, else insert" exactly as in the source); iteration order of
  the hash maps is determinized to insertion order, which is irrelevant for
  every property proved here (all observations go through key lookup or
  through order-insensitive sums / sets).
- Functions that can throw (`GetData`, `GetBestBidOffer`) or that invoke
  `std::vector::front()` on a possibly-empty vector (`OrderBook::GetBidAsk`,
  which performs no emptiness check: undefined behaviour on an empty stack)
  return explicit outcome types.
- The function-local `static` objects in `OrderBook::GetBidAsk`,
  `MarketDataService::GetBestBidOffer` and `MarketDataService::AggregateDepth`
  (constructed on the first invocation, returned unchanged afterwards) are
  modelled by threading each function's cache state explicitly:
  `Option`-valued cache in, value and updated cache out.
-/

set_option autoImplicit false

namespace TradingSystem

/-- `enum PricingSide { BID, OFFER }` from `marketdataservice.hpp`. -/
inductive PricingSide
  | BID
  | OFFER
deriving DecidableEq, Repr

/-- `enum Side { BUY, SELL }` from `tradebookingservice.hpp`. -/
inductive Side
  | BUY
  | SELL
deriving DecidableEq, Repr

/-- `enum OrderType { FOK, IOC, MARKET, LIMIT, STOP }` from `executionservice.hpp`. -/
inductive OrderType
  | FOK
  | IOC
  | MARKET
  | LIMIT
  | STOP
deriving DecidableEq, Repr

/-- `enum InquiryState` from `inquiryservice.hpp`. -/
inductive InquiryState
  | RECEIVED
  | QUOTED
  | DONE
  | REJECTED
  | CUSTOMER_REJECTED
deriving DecidableEq, Repr

/-- `class Order` (`marketdataservice.hpp`): a resting quote line. -/
structure Order where
  price : ℚ
  quantity : ℤ
  side : PricingSide
deriving DecidableEq, Repr

/-- `class BidOffer` (`marketdataservice.hpp`): a bid order and an offer order. -/
structure BidOffer where
  bidOrder : Order
  offerOrder : Order
deriving DecidableEq, Repr

/-- `class OrderBook<T>` (`marketdataservice.hpp`). The product `T` is
represented by its product id (the only product datum the core reads). -/
structure OrderBook where
  productId : String
  bidStack : List Order
  offerStack : List Order
deriving DecidableEq, Repr

/-! ### Generic keyed-store primitives

`std::unordered_map`/`std::map` access patterns used throughout the source:
`find` (`lookupKey`), "update existing else insert" (`upsertKey`), and
`m[k] += v` accumulation (`mapAccum`, used by `Position::AddPosition` on
`map<string,long>` and by `MarketDataService::AggregateOrders` on
`unordered_map<double,long>`). -/

/-- `m.find(k)`: first binding of `k`, if any. -/
def lookupKey {K V : Type} [DecidableEq K] : List (K × V) → K → Option V
  | [], _ => none
  | (k0, v0) :: rest, k => if k0 = k then some v0 else lookupKey rest k

/-- "if the key exists, replace the stored value outright; else insert"
(the `OnMessage` store step shared by every service). -/
def upsertKey {K V : Type} [DecidableEq K] : List (K × V) → K → V → List (K × V)
  | [], k, v => [(k, v)]
  | (k0, v0) :: rest, k, v =>
      if k0 = k then (k0, v) :: rest else (k0, v0) :: upsertKey rest k v

/-- `m[k] += v` on a C++ map with `0`-default: add into the existing binding,
else insert the new binding. Mirrors `Position::AddPosition`
(`positionservice.hpp` lines 108-119) and the accumulation loop of
`MarketDataService::AggregateOrders` (`marketdataservice.hpp` line 351). -/
def mapAccum {K : Type} [DecidableEq K] : List (K × ℤ) → K → ℤ → List (K × ℤ)
  | [], k, v => [(k, v)]
  | (k0, v0) :: rest, k, v =>
      if k0 = k then (k0, v0 + v) :: rest else (k0, v0) :: mapAccum rest k v

/-- Sum of all values of a keyed store (`Position::GetAggregatePosition` shape). -/
def sumVals {K : Type} (m : List (K × ℤ)) : ℤ :=
  (m.map Prod.snd).sum

/-- Sum of the values bound to key `k` (counting duplicate bindings, of which
reachable stores have none). -/
def sumAt {K : Type} [DecidableEq K] : List (K × ℤ) → K → ℤ
  | [], _ => 0
  | (k0, v0) :: rest, k => (if k0 = k then v0 else 0) + sumAt rest k

/-- The keys of a keyed store. -/
def keysOf {K V : Type} (m : List (K × V)) : List K :=
  m.map Prod.fst

/-! ### Best bid / offer (`marketdataservice.hpp`) -/

/-- The bid-stack scan of `OrderBook::GetBidAsk` (lines 180-184) and
`MarketDataService::GetBestBidOffer` (lines 328-332): starting from
`bids.front()`, replace the running best exactly when the visited order's
price is strictly greater. -/
def bestBidScan (best : Order) : List Order → Order
  | [] => best
  | o :: rest => bestBidScan (if o.price > best.price then o else best) rest

/-- The offer-stack scan (lines 186-190 and 335-339): strict minimum,
first-encountered on ties. -/
def bestOfferScan (best : Order) : List Order → Order
  | [] => best
  | o :: rest => bestOfferScan (if o.price < best.price then o else best) rest

/-- The scan shared by `OrderBook::GetBidAsk` and
`MarketDataService::GetBestBidOffer`: seed each side with `front()` and scan
the whole stack. `none` when either stack is empty, in which case the C++
either throws (GetBestBidOffer, which checks first) or hits
`std::vector::front()` on an empty vector (GetBidAsk, which does not check). -/
def bboCore (book : OrderBook) : Option BidOffer :=
  match book.bidStack, book.offerStack with
  | b0 :: bs, a0 :: as =>
      some ⟨bestBidScan b0 (b0 :: bs), bestOfferScan a0 (a0 :: as)⟩
  | _, _ => none

/-- Outcome of a best-bid/offer request. `emptyBookError` is the
`std::runtime_error` thrown by `MarketDataService::GetBestBidOffer` (line
320); `undefinedFront` marks `OrderBook::GetBidAsk` calling
`vector::front()` on an empty stack, which has no defined result. -/
inductive BBOOutcome
  | ok (bo : BidOffer)
  | emptyBookError
  | undefinedFront
deriving DecidableEq, Repr

/-- `OrderBook::GetBidAsk` (lines 172-194), value computed by one invocation
(the function-local `static` is treated separately by `getBidAskCall`). There
is no emptiness check: an empty stack means `front()` on an empty vector. -/
def getBidAsk (book : OrderBook) : BBOOutcome :=
  match bboCore book with
  | some bo => .ok bo
  | none => .undefinedFront

/-- `MarketDataService::GetBestBidOffer` (lines 312-344), value computed by
one invocation: explicit emptiness check (throw), then the same scan as
`GetBidAsk`. The inner `none` arm is unreachable under the guard. -/
def getBestBidOffer (book : OrderBook) : BBOOutcome :=
  if book.bidStack.isEmpty || book.offerStack.isEmpty then .emptyBookError
  else
    match bboCore book with
    | some bo => .ok bo
    | none => .emptyBookError

/-- One invocation of `OrderBook::GetBidAsk` including its function-local
`static BidOffer bestBidOffer` (line 192): the scan runs every call; the
static is constructed from the scan result only on the first call, and every
later call returns the already-constructed object. Returns (outcome, cache
after the call). -/
def getBidAskCall (cache : Option BidOffer) (book : OrderBook) :
    BBOOutcome × Option BidOffer :=
  match bboCore book with
  | none => (.undefinedFront, cache)
  | some fresh =>
      match cache with
      | some v => (.ok v, some v)
      | none => (.ok fresh, some fresh)

/-- One invocation of `MarketDataService::GetBestBidOffer` including its own
function-local `static BidOffer bestBidOffer` (line 342): the emptiness check
throws before the static is reached; otherwise the behaviour is the same
scan-then-static body (its `cache` is a distinct object from `GetBidAsk`'s
and is threaded separately by callers). -/
def getBestBidOfferCall (cache : Option BidOffer) (book : OrderBook) :
    BBOOutcome × Option BidOffer :=
  if book.bidStack.isEmpty || book.offerStack.isEmpty then (.emptyBookError, cache)
  else getBidAskCall cache book

/-! ### Depth aggregation (`marketdataservice.hpp` lines 347-369) -/

/-- `MarketDataService::AggregateOrders`: accumulate quantities per exact
price into `unordered_map<double,long>`, then emit one `Order` per price
level with the given side. Hash-map iteration order is determinized to
first-encounter order (the C++ order is unspecified; every property proved
about the result is order-insensitive). -/
def aggregateOrders (orders : List Order) (ty : PricingSide) : List Order :=
  (orders.foldl (fun acc o => mapAccum acc o.price o.quantity) []).map
    (fun pq => ⟨pq.1, pq.2, ty⟩)

/-- The order book built by one execution of `MarketDataService::AggregateDepth`
(lines 361-369) on a given stored book, before the function-local `static`. -/
def aggregateDepthPure (book : OrderBook) : OrderBook :=
  ⟨book.productId, aggregateOrders book.bidStack .BID,
    aggregateOrders book.offerStack .OFFER⟩

/-- One invocation of `MarketDataService::AggregateDepth` including its
function-local `static OrderBook aggregatedOrderBook` (line 367): construct
on the first call, return the stored object on every later call. -/
def aggregateDepthCall (cache : Option OrderBook) (book : OrderBook) :
    OrderBook × Option OrderBook :=
  match cache with
  | some v => (v, some v)
  | none => (aggregateDepthPure book, some (aggregateDepthPure book))

/-- The (price, summed-quantity) pairs of a stack, the observation the depth
aggregation is specified by. -/
def pricePairs (orders : List Order) : List (ℚ × ℤ) :=
  orders.map (fun o => (o.price, o.quantity))

/-! ### Trades and positions (`tradebookingservice.hpp`, `positionservice.hpp`) -/

/-- `class Trade<T>` (`tradebookingservice.hpp` lines 25-60). -/
structure Trade where
  productId : String
  tradeId : String
  price : ℚ
  book : String
  quantity : ℤ
  side : Side
deriving DecidableEq, Repr

/-- `class Position<T>` (`positionservice.hpp` lines 29-56): a product and its
`map<string,long>` of book-level quantities. -/
structure Position where
  productId : String
  positions : List (String × ℤ)
deriving DecidableEq, Repr

/-- `Position::GetAggregatePosition` (lines 100-106): sum of all book-level
quantities. -/
def getAggregatePosition (p : Position) : ℤ :=
  sumVals p.positions

/-- `Position::GetPosition` (lines 93-97): `positions[book]`, i.e. the stored
quantity, defaulting to `0` for an absent book. -/
def getPosition (p : Position) (book : String) : ℤ :=
  (lookupKey p.positions book).getD 0

/-- `PositionService::UpdatePositionFromTrade` (lines 235-248):
`AddPosition(book, +quantity)` on BUY, `AddPosition(book, -quantity)` on SELL
(`Position::AddPosition` is `mapAccum`). -/
def updatePositionFromTrade (t : Trade) (p : Position) : Position :=
  match t.side with
  | .BUY => { p with positions := mapAccum p.positions t.book t.quantity }
  | .SELL => { p with positions := mapAccum p.positions t.book (-t.quantity) }

/-- `PositionService::MergePositions` (lines 250-257): add every book of
`fromPos` into `toPos`. -/
def mergePositions (fromPos toPos : Position) : Position :=
  { toPos with
    positions := fromPos.positions.foldl (fun acc bq => mapAccum acc bq.1 bq.2)
      toPos.positions }

/-- `PositionService::AddTrade` (lines 259-278): build a fresh per-trade
position, merge the previously stored record (if any) into it, store the
merged record wholesale, and notify listeners with it. Returns (store after,
the position passed to `ProcessAdd`). -/
def positionAddTrade (store : List (String × Position)) (t : Trade) :
    List (String × Position) × Position :=
  let newPosition := updatePositionFromTrade t ⟨t.productId, []⟩
  match lookupKey store t.productId with
  | some existing =>
      let merged := mergePositions existing newPosition
      (upsertKey store t.productId merged, merged)
  | none => (upsertKey store t.productId newPosition, newPosition)

/-- The position store after `PositionService::AddTrade` has processed a
sequence of trades, starting from the empty service. -/
def processTrades (ts : List Trade) : List (String × Position) :=
  ts.foldl (fun s t => (positionAddTrade s t).1) []

/-- The signed quantity of a trade: `+quantity` on BUY, `-quantity` on SELL. -/
def signedQty (t : Trade) : ℤ :=
  match t.side with
  | .BUY => t.quantity
  | .SELL => -t.quantity

/-- Sum of signed quantities of the trades on book `book` of product `pid`
(the quantity the netting invariant compares book-level positions against). -/
def signedBookSum (pid book : String) : List Trade → ℤ
  | [] => 0
  | t :: ts =>
      (if t.productId = pid ∧ t.book = book then signedQty t else 0) +
        signedBookSum pid book ts

/-- Sum of signed quantities of all trades of product `pid`. -/
def signedTotal (pid : String) : List Trade → ℤ
  | [] => 0
  | t :: ts => (if t.productId = pid then signedQty t else 0) + signedTotal pid ts

/-- The book-level quantity of product `pid` on `book` as observed through the
position store (`GetData` then `GetPosition`), `0` when the product has no
stored position. -/
def storeBookQty (store : List (String × Position)) (pid book : String) : ℤ :=
  match lookupKey store pid with
  | some pos => getPosition pos book
  | none => 0

/-- The aggregate position of product `pid` as observed through the position
store, `0` when the product has no stored position. -/
def storeAggregate (store : List (String × Position)) (pid : String) : ℤ :=
  match lookupKey store pid with
  | some pos => getAggregatePosition pos
  | none => 0

/-! ### Risk (`riskservice.hpp`, `utils/utils.hpp`) -/

/-- `class PV01<T>` (`riskservice.hpp` lines 21-47). -/
structure PV01 where
  productId : String
  pv01 : ℚ
  quantity : ℤ
deriving DecidableEq, Repr

/-- `calculatePV01` (`utils/utils.hpp` lines 78-89): the static per-product
PV01 factor, `0` for unknown ids; the C++ `double` literals are the exact
decimals written in the source. -/
def calculatePV01 (cusip : String) : ℚ :=
  let pv01 : ℚ := 0
  let pv01 := if cusip = "91282CJL6" then 1/100 else pv01
  let pv01 := if cusip = "91282CJK8" then 2/100 else pv01
  let pv01 := if cusip = "91282CJN2" then 4/100 else pv01
  let pv01 := if cusip = "91282CJM4" then 6/100 else pv01
  let pv01 := if cusip = "91282CJJ1" then 8/100 else pv01
  let pv01 := if cusip = "912810TW8" then 12/100 else pv01
  let pv01 := if cusip = "912810TV0" then 20/100 else pv01
  pv01

/-- `RiskService::AddPosition` (`riskservice.hpp` lines 242-265): build
`PV01(product, calculatePV01(id), GetAggregatePosition())`, store it under the
product id (replace or insert), notify listeners with it. Returns (store
after, the PV01 passed to `ProcessAdd`). -/
def riskAddPosition (pvs : List (String × PV01)) (position : Position) :
    List (String × PV01) × PV01 :=
  let iD := position.productId
  let val := calculatePV01 iD
  let qty := getAggregatePosition position
  let pv01 : PV01 := ⟨iD, val, qty⟩
  (upsertKey pvs iD pv01, pv01)

/-! ### Algorithmic execution (`algoexecutionservice.hpp`, `executionservice.hpp`) -/

/-- `class ExecutionOrder<T>` (`executionservice.hpp` lines 32-62). -/
structure ExecutionOrder where
  productId : String
  side : PricingSide
  orderId : String
  orderType : OrderType
  price : ℚ
  visibleQuantity : ℤ
  hiddenQuantity : ℤ
  parentOrderId : String
  isChildOrder : Bool
deriving DecidableEq, Repr

/-- The mutable state of `AlgoExecutionService` (`algoexecutionservice.hpp`
lines 88-92): the `side` toggle counter (initialized to 0) and the execution
store keyed by product id (an `AlgoExecution` wraps exactly one
`ExecutionOrder`). -/
structure AlgoState where
  sideCount : ℕ
  algoExe : List (String × ExecutionOrder)
deriving DecidableEq, Repr

/-- `AlgoExecutionService::DetermineOrderSide` (lines 181-184):
`side % 2 == 0 ? BID : OFFER`. -/
def determineOrderSide (sideCount : ℕ) : PricingSide :=
  if sideCount % 2 = 0 then .BID else .OFFER

/-- `AlgoExecutionService::CreateExecutionOrder` (lines 174-179): a MARKET,
non-child order with the freshly generated id (`GenerateRandomID` is the
external id-generation boundary, passed in as `orderId`), visible quantity =
the chosen quantity, hidden quantity 0, empty parent id. -/
def createExecutionOrder (book : OrderBook) (sd : PricingSide) (orderId : String)
    (price : ℚ) (quantity : ℤ) : ExecutionOrder :=
  ⟨book.productId, sd, orderId, .MARKET, price, quantity, 0, "", false⟩

/-- `AlgoExecutionService::AlgoExecuteOrder` (lines 187-211): call
`orderBook.GetBidAsk()` (including its function-local static, threaded as
`cache`); if `offerPrice - bidPrice <= spread` (spread = 1/128, set in the
constructor) emit one execution order through `OnMessage` (store upsert +
listener notification) and increment the side counter, else do nothing.
Returns `none` when `GetBidAsk` hits `front()` on an empty stack, else
(cache after, service state after, orders passed to `ProcessAdd`). -/
def algoExecuteOrder (cache : Option BidOffer) (st : AlgoState)
    (orderBook : OrderBook) (freshId : String) :
    Option (Option BidOffer × AlgoState × List ExecutionOrder) :=
  match getBidAskCall cache orderBook with
  | (.ok bidOffer, cache') =>
      let bidPrice := bidOffer.bidOrder.price
      let offerPrice := bidOffer.offerOrder.price
      if offerPrice - bidPrice ≤ 1/128 then
        let sd := determineOrderSide st.sideCount
        let price := if sd = .BID then bidPrice else offerPrice
        let quantity :=
          if sd = .BID then bidOffer.bidOrder.quantity
          else bidOffer.offerOrder.quantity
        let ord := createExecutionOrder orderBook sd freshId price quantity
        some (cache', ⟨st.sideCount + 1, upsertKey st.algoExe orderBook.productId ord⟩,
          [ord])
      else some (cache', st, [])
  | (_, _) => none

/-! ### Booking bridge (`tradebookingservice.hpp` lines 344-414) -/

/-- `ExecutionBookingListener::DetermineSideFromPricingSide` (lines 398-402):
`pricingSide == BID ? SELL : BUY`. -/
def determineSideFromPricingSide (pricingSide : PricingSide) : Side :=
  if pricingSide = .BID then .SELL else .BUY

/-- `ExecutionBookingListener::DetermineBookFromCount` (lines 404-414):
`count % 3` selects among three fixed labels (the counter only ever holds
0, 1, 2, ... so it is modelled as `ℕ`). -/
def determineBookFromCount (count : ℕ) : String :=
  match count % 3 with
  | 0 => "TRSY1"
  | 1 => "TRSY2"
  | 2 => "TRSY3"
  | _ => "TRSY1"

/-- `ExecutionBookingListener::CreateTradeFromExecutionOrder` (lines 388-396):
trade id = order id, price = order price, quantity = visible + hidden. -/
def createTradeFromExecutionOrder (order : ExecutionOrder) (book : String)
    (sd : Side) : Trade :=
  ⟨order.productId, order.orderId, order.price, book,
    order.visibleQuantity + order.hiddenQuantity, sd⟩

/-- `ExecutionBookingListener::ProcessAdd` (lines 378-386): increment the call
counter, derive contra-side and book label, build the trade and book it.
Returns (counter after, the trade passed to `BookTrade`). -/
def bookingProcessAdd (count : ℕ) (order : ExecutionOrder) : ℕ × Trade :=
  let count' := count + 1
  let sd := determineSideFromPricingSide order.side
  let book := determineBookFromCount count'
  (count', createTradeFromExecutionOrder order book sd)

/-! ### Inquiries (`inquiryservice.hpp`)

The inquiry store cascade is mutually recursive in the source
(`OnMessage` → internal `InquiryListener::ProcessAdd` → `SendQuote` →
`InquiryConnector::Publish` → `OnMessage`), so the three functions are
embedded with an explicit fuel parameter, one unit consumed per cross-call;
the recursion depth of every actual call is bounded (a re-published inquiry
is never in state RECEIVED), so any sufficiently large fuel computes the real
result and the theorems hold for every such fuel. The service's listener list
holds the internal `InquiryListener` registered by the constructor (line
205); external history sinks do not touch the store and are out of scope.
Each function returns `none` when the C++ would throw `NotFound` or when fuel
runs out, and otherwise (store after, inquiries passed to `ProcessAdd`, in
call order). -/

/-- `class Inquiry<T>` (`inquiryservice.hpp` lines 23-64). -/
structure Inquiry where
  inquiryId : String
  productId : String
  side : Side
  quantity : ℤ
  price : ℚ
  state : InquiryState
deriving DecidableEq, Repr

mutual

/-- `InquiryService::OnMessage` (lines 240-257) together with the internal
`InquiryListener::ProcessAdd` (lines 403-412): upsert by inquiry id, then the
listener sends an automatic quote at the fixed price 100.0 exactly when the
notified inquiry is in state RECEIVED. -/
def inquiryOnMessage : ℕ → List (String × Inquiry) → Inquiry →
    Option (List (String × Inquiry) × List Inquiry)
  | 0, _, _ => none
  | fuel + 1, store, data =>
      let s1 := upsertKey store data.inquiryId data
      if data.state = .RECEIVED then
        match inquirySendQuote fuel s1 data.inquiryId 100 with
        | some (s2, evs) => some (s2, data :: evs)
        | none => none
      else some (s1, [data])

/-- `InquiryService::SendQuote` (lines 259-266): look up the stored inquiry
(`GetData` throws NotFound when absent), set its price in place, then hand the
stored record to `InquiryConnector::Publish`. -/
def inquirySendQuote : ℕ → List (String × Inquiry) → String → ℚ →
    Option (List (String × Inquiry) × List Inquiry)
  | 0, _, _, _ => none
  | fuel + 1, store, inquiryId, price =>
      match lookupKey store inquiryId with
      | none => none
      | some inq =>
          let s1 := upsertKey store inquiryId { inq with price := price }
          inquiryPublish fuel s1 inquiryId

/-- `InquiryConnector::Publish` (lines 346-358): if the (stored, aliased)
inquiry is in state RECEIVED, set it to QUOTED and run `OnMessage`, then set
it to DONE and run `OnMessage` again; otherwise do nothing. The C++ `data`
parameter aliases the map slot, modelled by re-reading the store at each
step. -/
def inquiryPublish : ℕ → List (String × Inquiry) → String →
    Option (List (String × Inquiry) × List Inquiry)
  | 0, _, _ => none
  | fuel + 1, store, inquiryId =>
      match lookupKey store inquiryId with
      | none => none
      | some inq =>
          if inq.state = .RECEIVED then
            let inqQ := { inq with state := .QUOTED }
            let s1 := upsertKey store inquiryId inqQ
            match inquiryOnMessage fuel s1 inqQ with
            | none => none
            | some (s2, evs1) =>
                match lookupKey s2 inquiryId with
                | none => none
                | some cur =>
                    let inqD := { cur with state := .DONE }
                    let s3 := upsertKey s2 inquiryId inqD
                    match inquiryOnMessage fuel s3 inqD with
                    | none => none
                    | some (s4, evs2) => some (s4, evs1 ++ evs2)
          else some (store, [])

end

/-- `InquiryService::RejectInquiry` (lines 268-273): look up the stored
inquiry (`GetData` throws NotFound when absent) and set its state to REJECTED
in place. No listener is invoked, so the event list is always empty. -/
def rejectInquiry (store : List (String × Inquiry)) (inquiryId : String) :
    Option (List (String × Inquiry) × List Inquiry) :=
  match lookupKey store inquiryId with
  | none => none
  | some inq => some (upsertKey store inquiryId { inq with state := .REJECTED }, [])

/-! ## Keyed-store lemmas -/

theorem keysOf_nil {K V : Type} : keysOf ([] : List (K × V)) = [] := rfl

theorem keysOf_cons {K V : Type} (e : K × V) (rest : List (K × V)) :
    keysOf (e :: rest) = e.1 :: keysOf rest := rfl

theorem keysOf_append {K V : Type} (a b : List (K × V)) :
    keysOf (a ++ b) = keysOf a ++ keysOf b := by
  simp [keysOf]

theorem lookupKey_upsertKey_self {K V : Type} [DecidableEq K]
    (m : List (K × V)) (k : K) (v : V) :
    lookupKey (upsertKey m k v) k = some v := by
  induction m with
  | nil => simp [upsertKey, lookupKey]
  | cons e rest ih =>
    obtain ⟨k0, v0⟩ := e
    by_cases h : k0 = k
    · simp [upsertKey, lookupKey, h]
    · simp [upsertKey, lookupKey, h, ih]

theorem lookupKey_upsertKey_other {K V : Type} [DecidableEq K]
    (m : List (K × V)) (k k' : K) (v : V) (h : k' ≠ k) :
    lookupKey (upsertKey m k v) k' = lookupKey m k' := by
  induction m with
  | nil => simp [upsertKey, lookupKey, Ne.symm h]
  | cons e rest ih =>
    obtain ⟨k0, v0⟩ := e
    by_cases h0 : k0 = k
    · subst h0
      simp [upsertKey, lookupKey, Ne.symm h]
    · simp [upsertKey, lookupKey, h0, ih]

theorem lookupKey_mapAccum_self {K : Type} [DecidableEq K]
    (m : List (K × ℤ)) (k : K) (v : ℤ) :
    lookupKey (mapAccum m k v) k = some ((lookupKey m k).getD 0 + v) := by
  induction m with
  | nil => simp [mapAccum, lookupKey]
  | cons e rest ih =>
    obtain ⟨k0, v0⟩ := e
    by_cases h : k0 = k
    · simp [mapAccum, lookupKey, h]
    · simp [mapAccum, lookupKey, h, ih]

theorem lookupKey_mapAccum_other {K : Type} [DecidableEq K]
    (m : List (K × ℤ)) (k k' : K) (v : ℤ) (h : k' ≠ k) :
    lookupKey (mapAccum m k v) k' = lookupKey m k' := by
  induction m with
  | nil => simp [mapAccum, lookupKey, Ne.symm h]
  | cons e rest ih =>
    obtain ⟨k0, v0⟩ := e
    by_cases h0 : k0 = k
    · subst h0
      simp [mapAccum, lookupKey, Ne.symm h]
    · simp [mapAccum, lookupKey, h0, ih]

theorem sumVals_mapAccum {K : Type} [DecidableEq K]
    (m : List (K × ℤ)) (k : K) (v : ℤ) :
    sumVals (mapAccum m k v) = sumVals m + v := by
  induction m with
  | nil => simp [mapAccum, sumVals]
  | cons e rest ih =>
    obtain ⟨k0, v0⟩ := e
    by_cases h : k0 = k
    · simp [mapAccum, sumVals, h]
      ring
    · simp [mapAccum, sumVals, h] at ih ⊢
      omega

theorem mapAccum_of_not_mem {K : Type} [DecidableEq K]
    (m : List (K × ℤ)) (k : K) (v : ℤ) (h : k ∉ keysOf m) :
    mapAccum m k v = m ++ [(k, v)] := by
  induction m with
  | nil => simp [mapAccum]
  | cons e rest ih =>
    obtain ⟨k0, v0⟩ := e
    simp only [keysOf_cons, List.mem_cons] at h
    push_neg at h
    simp [mapAccum, Ne.symm h.1, ih h.2]

theorem keysOf_mapAccum_of_mem {K : Type} [DecidableEq K]
    (m : List (K × ℤ)) (k : K) (v : ℤ) (h : k ∈ keysOf m) :
    keysOf (mapAccum m k v) = keysOf m := by
  induction m with
  | nil => simp [keysOf_nil] at h
  | cons e rest ih =>
    obtain ⟨k0, v0⟩ := e
    by_cases h0 : k0 = k
    · simp [mapAccum, keysOf_cons, h0]
    · simp only [keysOf_cons, List.mem_cons] at h
      have hr : k ∈ keysOf rest := by
        rcases h with h | h
        · exact absurd h.symm h0
        · exact h
      simp [mapAccum, keysOf_cons, h0, ih hr]

theorem keysOf_nodup_mapAccum {K : Type} [DecidableEq K]
    (m : List (K × ℤ)) (k : K) (v : ℤ) (h : (keysOf m).Nodup) :
    (keysOf (mapAccum m k v)).Nodup := by
  by_cases hm : k ∈ keysOf m
  · rw [keysOf_mapAccum_of_mem m k v hm]
    exact h
  · rw [mapAccum_of_not_mem m k v hm]
    rw [keysOf_append]
    simp only [List.nodup_append]
    refine ⟨h, by simp [keysOf_cons, keysOf_nil], ?_⟩
    intro a ha hak
    simp only [keysOf_cons, keysOf_nil, List.mem_singleton] at hak
    exact hm (hak ▸ ha)

theorem sumAt_of_not_mem {K : Type} [DecidableEq K]
    (m : List (K × ℤ)) (k : K) (h : k ∉ keysOf m) :
    sumAt m k = 0 := by
  induction m with
  | nil => simp [sumAt]
  | cons e rest ih =>
    obtain ⟨k0, v0⟩ := e
    simp only [keysOf_cons, List.mem_cons] at h
    push_neg at h
    simp [sumAt, Ne.symm h.1, ih h.2]

theorem lookupKey_of_not_mem {K V : Type} [DecidableEq K]
    (m : List (K × V)) (k : K) (h : k ∉ keysOf m) :
    lookupKey m k = none := by
  induction m with
  | nil => simp [lookupKey]
  | cons e rest ih =>
    obtain ⟨k0, v0⟩ := e
    simp only [keysOf_cons, List.mem_cons] at h
    push_neg at h
    simp [lookupKey, Ne.symm h.1, ih h.2]

theorem sumAt_eq_lookup {K : Type} [DecidableEq K]
    (m : List (K × ℤ)) (k : K) (h : (keysOf m).Nodup) :
    sumAt m k = (lookupKey m k).getD 0 := by
  induction m with
  | nil => simp [sumAt, lookupKey]
  | cons e rest ih =>
    obtain ⟨k0, v0⟩ := e
    simp only [keysOf_cons, List.nodup_cons] at h
    by_cases h0 : k0 = k
    · subst h0
      rw [sumAt, lookupKey]
      simp [sumAt_of_not_mem rest k0 h.1]
    · rw [sumAt, lookupKey]
      simp [h0, ih h.2]

theorem lookupKey_foldAccum {K : Type} [DecidableEq K]
    (L : List (K × ℤ)) :
    ∀ (acc : List (K × ℤ)) (k : K),
      (lookupKey (L.foldl (fun a e => mapAccum a e.1 e.2) acc) k).getD 0 =
        (lookupKey acc k).getD 0 + sumAt L k := by
  induction L with
  | nil => intro acc k; simp [sumAt]
  | cons e rest ih =>
    intro acc k
    rw [List.foldl_cons, ih (mapAccum acc e.1 e.2) k, sumAt]
    by_cases h : e.1 = k
    · subst h
      rw [lookupKey_mapAccum_self]
      simp
      ring
    · rw [lookupKey_mapAccum_other acc e.1 k e.2 (Ne.symm h)]
      simp [h]

theorem sumVals_foldAccum {K : Type} [DecidableEq K]
    (L : List (K × ℤ)) :
    ∀ acc : List (K × ℤ),
      sumVals (L.foldl (fun a e => mapAccum a e.1 e.2) acc) =
        sumVals acc + sumVals L := by
  induction L with
  | nil => intro acc; simp [sumVals]
  | cons e rest ih =>
    intro acc
    rw [List.foldl_cons, ih (mapAccum acc e.1 e.2), sumVals_mapAccum]
    simp [sumVals]
    ring

theorem keysOf_nodup_foldAccum {K : Type} [DecidableEq K]
    (L : List (K × ℤ)) :
    ∀ acc : List (K × ℤ), (keysOf acc).Nodup →
      (keysOf (L.foldl (fun a e => mapAccum a e.1 e.2) acc)).Nodup := by
  induction L with
  | nil => intro acc h; simpa using h
  | cons e rest ih =>
    intro acc h
    rw [List.foldl_cons]
    exact ih (mapAccum acc e.1 e.2) (keysOf_nodup_mapAccum acc e.1 e.2 h)

/-- Folding `mapAccum` over entries with fresh, pairwise-distinct keys appends
them unchanged. -/
theorem foldAccum_fresh {K : Type} [DecidableEq K]
    (L : List (K × ℤ)) :
    ∀ acc : List (K × ℤ), (keysOf L).Nodup →
      (∀ k ∈ keysOf L, k ∉ keysOf acc) →
      L.foldl (fun a e => mapAccum a e.1 e.2) acc = acc ++ L := by
  induction L with
  | nil => intro acc _ _; simp
  | cons e rest ih =>
    intro acc hnd hfresh
    simp only [keysOf_cons, List.nodup_cons] at hnd
    rw [List.foldl_cons,
      mapAccum_of_not_mem acc e.1 e.2 (hfresh e.1 (by simp [keysOf_cons]))]
    rw [ih (acc ++ [(e.1, e.2)]) hnd.2 ?_]
    · simp
    · intro k hk
      rw [keysOf_append]
      simp only [List.mem_append, keysOf_cons, keysOf_nil, List.mem_singleton]
      push_neg
      refine ⟨hfresh k (by simp [keysOf_cons, hk]), ?_⟩
      intro hke
      exact hnd.1 (hke ▸ hk)

/-! ## Best bid / offer scan lemmas -/

theorem bestBidScan_ge : ∀ (l : List Order) (best : Order),
    best.price ≤ (bestBidScan best l).price ∧
      ∀ o ∈ l, o.price ≤ (bestBidScan best l).price := by
  intro l
  induction l with
  | nil => intro best; simp [bestBidScan]
  | cons o rest ih =>
    intro best
    rw [bestBidScan]
    by_cases h : o.price > best.price
    · rw [if_pos h]
      refine ⟨le_trans (le_of_lt h) (ih o).1, ?_⟩
      intro o' ho'
      rcases List.mem_cons.mp ho' with rfl | ho2
      · exact (ih o').1
      · exact (ih o).2 o' ho2
    · rw [if_neg h]
      refine ⟨(ih best).1, ?_⟩
      intro o' ho'
      rcases List.mem_cons.mp ho' with rfl | ho2
      · exact le_trans (le_of_not_lt h) (ih best).1
      · exact (ih best).2 o' ho2

theorem bestBidScan_first : ∀ (l : List Order) (best : Order),
    ∃ pre post, best :: l = pre ++ bestBidScan best l :: post ∧
      ∀ o ∈ pre, o.price < (bestBidScan best l).price := by
  intro l
  induction l with
  | nil =>
    intro best
    exact ⟨[], [], by simp [bestBidScan], by simp⟩
  | cons o rest ih =>
    intro best
    rw [bestBidScan]
    by_cases h : o.price > best.price
    · rw [if_pos h]
      obtain ⟨pre, post, heq, hlt⟩ := ih o
      refine ⟨best :: pre, post, by rw [List.cons_append, ← heq], ?_⟩
      intro o' ho'
      rcases List.mem_cons.mp ho' with rfl | ho2
      · exact lt_of_lt_of_le h (bestBidScan_ge rest o).1
      · exact hlt o' ho2
    · rw [if_neg h]
      obtain ⟨pre, post, heq, hlt⟩ := ih best
      cases pre with
      | nil =>
        simp only [List.nil_append, List.cons.injEq] at heq
        refine ⟨[], o :: rest, ?_, by simp⟩
        rw [List.nil_append, ← heq.1]
      | cons p pre2 =>
        simp only [List.cons_append, List.cons.injEq] at heq
        have hb : best.price < (bestBidScan best rest).price := by
          have hp := hlt p (by simp)
          rw [← heq.1] at hp
          exact hp
        refine ⟨best :: o :: pre2, post, ?_, ?_⟩
        · rw [List.cons_append, List.cons_append]
          exact congrArg (fun tl => best :: o :: tl) heq.2
        · intro o' ho'
          rcases List.mem_cons.mp ho' with rfl | ho2
          · exact hb
          · rcases List.mem_cons.mp ho2 with rfl | ho3
            · exact lt_of_le_of_lt (le_of_not_lt h) hb
            · exact hlt o' (by simp [ho3])

theorem bestOfferScan_le : ∀ (l : List Order) (best : Order),
    (bestOfferScan best l).price ≤ best.price ∧
      ∀ o ∈ l, (bestOfferScan best l).price ≤ o.price := by
  intro l
  induction l with
  | nil => intro best; simp [bestOfferScan]
  | cons o rest ih =>
    intro best
    rw [bestOfferScan]
    by_cases h : o.price < best.price
    · rw [if_pos h]
      refine ⟨le_trans (ih o).1 (le_of_lt h), ?_⟩
      intro o' ho'
      rcases List.mem_cons.mp ho' with rfl | ho2
      · exact (ih o').1
      · exact (ih o).2 o' ho2
    · rw [if_neg h]
      refine ⟨(ih best).1, ?_⟩
      intro o' ho'
      rcases List.mem_cons.mp ho' with rfl | ho2
      · exact le_trans (ih best).1 (le_of_not_lt h)
      · exact (ih best).2 o' ho2

theorem bestOfferScan_first : ∀ (l : List Order) (best : Order),
    ∃ pre post, best :: l = pre ++ bestOfferScan best l :: post ∧
      ∀ o ∈ pre, (bestOfferScan best l).price < o.price := by
  intro l
  induction l with
  | nil =>
    intro best
    exact ⟨[], [], by simp [bestOfferScan], by simp⟩
  | cons o rest ih =>
    intro best
    rw [bestOfferScan]
    by_cases h : o.price < best.price
    · rw [if_pos h]
      obtain ⟨pre, post, heq, hlt⟩ := ih o
      refine ⟨best :: pre, post, by rw [List.cons_append, ← heq], ?_⟩
      intro o' ho'
      rcases List.mem_cons.mp ho' with rfl | ho2
      · exact lt_of_le_of_lt (bestOfferScan_le rest o).1 h
      · exact hlt o' ho2
    · rw [if_neg h]
      obtain ⟨pre, post, heq, hlt⟩ := ih best
      cases pre with
      | nil =>
        simp only [List.nil_append, List.cons.injEq] at heq
        refine ⟨[], o :: rest, ?_, by simp⟩
        rw [List.nil_append, ← heq.1]
      | cons p pre2 =>
        simp only [List.cons_append, List.cons.injEq] at heq
        have hb : (bestOfferScan best rest).price < best.price := by
          have hp := hlt p (by simp)
          rw [← heq.1] at hp
          exact hp
        refine ⟨best :: o :: pre2, post, ?_, ?_⟩
        · rw [List.cons_append, List.cons_append]
          exact congrArg (fun tl => best :: o :: tl) heq.2
        · intro o' ho'
          rcases List.mem_cons.mp ho' with rfl | ho2
          · exact hb
          · rcases List.mem_cons.mp ho2 with rfl | ho3
            · exact lt_of_lt_of_le hb (le_of_not_lt h)
            · exact hlt o' (by simp [ho3])

theorem bestBidScan_cons_self (b : Order) (l : List Order) :
    bestBidScan b (b :: l) = bestBidScan b l := by
  rw [bestBidScan]
  simp

theorem bestOfferScan_cons_self (b : Order) (l : List Order) :
    bestOfferScan b (b :: l) = bestOfferScan b l := by
  rw [bestOfferScan]
  simp

/-! ## Best bid / offer theorems -/

/-- C2: for every order book whose bid stack and offer stack are both
non-empty, `OrderBook::GetBidAsk` and `MarketDataService::GetBestBidOffer`
compute the same bid/offer pair; the bid's price is greater than or equal to
every bid price in the book, the offer's price is less than or equal to every
offer price, and on a tie for best price the order encountered first in
iteration order is the one returned (every order strictly before the returned
one has a strictly worse price). -/
theorem best_bid_offer_extremal_first_tie (book : OrderBook)
    (hb : book.bidStack ≠ []) (ho : book.offerStack ≠ []) :
    ∃ bo, getBidAsk book = .ok bo ∧ getBestBidOffer book = .ok bo ∧
      (∀ o ∈ book.bidStack, o.price ≤ bo.bidOrder.price) ∧
      (∃ pre post, book.bidStack = pre ++ bo.bidOrder :: post ∧
        ∀ o ∈ pre, o.price < bo.bidOrder.price) ∧
      (∀ o ∈ book.offerStack, bo.offerOrder.price ≤ o.price) ∧
      (∃ pre post, book.offerStack = pre ++ bo.offerOrder :: post ∧
        ∀ o ∈ pre, bo.offerOrder.price < o.price) := by
  rcases hbs : book.bidStack with _ | ⟨b0, bs⟩
  · exact absurd hbs hb
  rcases hos : book.offerStack with _ | ⟨a0, as⟩
  · exact absurd hos ho
  have hcsb := bestBidScan_cons_self b0 bs
  have hcso := bestOfferScan_cons_self a0 as
  have hmaxb := (bestBidScan_ge (b0 :: bs) b0).2
  rw [hcsb] at hmaxb
  have hmaxo := (bestOfferScan_le (a0 :: as) a0).2
  rw [hcso] at hmaxo
  refine ⟨⟨bestBidScan b0 bs, bestOfferScan a0 as⟩, ?_, ?_, ?_, ?_, ?_, ?_⟩
  · simp [getBidAsk, bboCore, hbs, hos, hcsb, hcso]
  · simp [getBestBidOffer, bboCore, hbs, hos, hcsb, hcso]
  · exact hmaxb
  · exact bestBidScan_first bs b0
  · exact hmaxo
  · exact bestOfferScan_first as a0

/-- Witness for C2 on a concrete book with a tie on each side. -/
theorem best_bid_offer_extremal_witness :
    (⟨"W", [⟨101, 10, .BID⟩, ⟨102, 5, .BID⟩, ⟨102, 7, .BID⟩],
      [⟨103, 4, .OFFER⟩, ⟨102, 9, .OFFER⟩, ⟨102, 6, .OFFER⟩]⟩ :
        OrderBook).bidStack ≠ [] ∧
    (⟨"W", [⟨101, 10, .BID⟩, ⟨102, 5, .BID⟩, ⟨102, 7, .BID⟩],
      [⟨103, 4, .OFFER⟩, ⟨102, 9, .OFFER⟩, ⟨102, 6, .OFFER⟩]⟩ :
        OrderBook).offerStack ≠ [] ∧
    (∃ bo,
      getBidAsk ⟨"W", [⟨101, 10, .BID⟩, ⟨102, 5, .BID⟩, ⟨102, 7, .BID⟩],
        [⟨103, 4, .OFFER⟩, ⟨102, 9, .OFFER⟩, ⟨102, 6, .OFFER⟩]⟩ = .ok bo ∧
      getBestBidOffer ⟨"W", [⟨101, 10, .BID⟩, ⟨102, 5, .BID⟩, ⟨102, 7, .BID⟩],
        [⟨103, 4, .OFFER⟩, ⟨102, 9, .OFFER⟩, ⟨102, 6, .OFFER⟩]⟩ = .ok bo ∧
      (∀ o ∈ (⟨"W", [⟨101, 10, .BID⟩, ⟨102, 5, .BID⟩, ⟨102, 7, .BID⟩],
        [⟨103, 4, .OFFER⟩, ⟨102, 9, .OFFER⟩, ⟨102, 6, .OFFER⟩]⟩ :
          OrderBook).bidStack, o.price ≤ bo.bidOrder.price) ∧
      (∃ pre post, (⟨"W", [⟨101, 10, .BID⟩, ⟨102, 5, .BID⟩, ⟨102, 7, .BID⟩],
        [⟨103, 4, .OFFER⟩, ⟨102, 9, .OFFER⟩, ⟨102, 6, .OFFER⟩]⟩ :
          OrderBook).bidStack = pre ++ bo.bidOrder :: post ∧
        ∀ o ∈ pre, o.price < bo.bidOrder.price) ∧
      (∀ o ∈ (⟨"W", [⟨101, 10, .BID⟩, ⟨102, 5, .BID⟩, ⟨102, 7, .BID⟩],
        [⟨103, 4, .OFFER⟩, ⟨102, 9, .OFFER⟩, ⟨102, 6, .OFFER⟩]⟩ :
          OrderBook).offerStack, bo.offerOrder.price ≤ o.price) ∧
      (∃ pre post, (⟨"W", [⟨101, 10, .BID⟩, ⟨102, 5, .BID⟩, ⟨102, 7, .BID⟩],
        [⟨103, 4, .OFFER⟩, ⟨102, 9, .OFFER⟩, ⟨102, 6, .OFFER⟩]⟩ :
          OrderBook).offerStack = pre ++ bo.offerOrder :: post ∧
        ∀ o ∈ pre, bo.offerOrder.price < o.price)) :=
  ⟨by simp, by simp,
    best_bid_offer_extremal_first_tie _ (by simp) (by simp)⟩

/-- C3: `OrderBook::GetBidAsk`, `MarketDataService::GetBestBidOffer` and
`MarketDataService::AggregateDepth` each return a function-local static
constructed on the first invocation; with the static already constructed
(cache `some v` / `some w`), every later invocation returns exactly that first
value whatever book it is given (GetBestBidOffer still throws on an empty
book before reaching the static, and GetBidAsk still runs its unchecked
`front()` scan), and the first invocation (cache `none`) returns and stores
the freshly computed value. -/
theorem bbo_static_first_call_cached (v : BidOffer) (w : OrderBook)
    (book : OrderBook) :
    getBidAskCall (some v) book =
      ((bboCore book).elim BBOOutcome.undefinedFront (fun _ => .ok v), some v) ∧
    getBidAskCall none book =
      ((bboCore book).elim BBOOutcome.undefinedFront BBOOutcome.ok, bboCore book) ∧
    getBestBidOfferCall (some v) book =
      ((if book.bidStack.isEmpty || book.offerStack.isEmpty then .emptyBookError
        else .ok v), some v) ∧
    getBestBidOfferCall none book =
      (if book.bidStack.isEmpty || book.offerStack.isEmpty then (.emptyBookError, none)
       else ((bboCore book).elim BBOOutcome.undefinedFront BBOOutcome.ok,
        bboCore book)) ∧
    aggregateDepthCall (some w) book = (w, some w) ∧
    aggregateDepthCall none book =
      (aggregateDepthPure book, some (aggregateDepthPure book)) := by
  rcases hbs : book.bidStack with _ | ⟨b0, bs⟩ <;>
    rcases hos : book.offerStack with _ | ⟨a0, as⟩ <;>
      simp [getBidAskCall, getBestBidOfferCall, aggregateDepthCall, bboCore, hbs, hos]

/-- C7 (amended): on a book with an empty bid or offer stack, only
`MarketDataService::GetBestBidOffer` raises the empty-book error;
`OrderBook::GetBidAsk` performs no emptiness check and instead calls
`vector::front()` on an empty vector, which has no defined result. Neither
entry point returns a value on empty input. -/
theorem empty_book_error_only_checked_entry (book : OrderBook)
    (h : book.bidStack = [] ∨ book.offerStack = []) :
    getBestBidOffer book = .emptyBookError ∧ getBidAsk book = .undefinedFront := by
  have hc : bboCore book = none := by
    rcases hbs : book.bidStack with _ | ⟨b0, bs⟩ <;>
      rcases hos : book.offerStack with _ | ⟨a0, as⟩ <;>
        simp_all [bboCore]
  constructor
  · rw [getBestBidOffer]
    rcases h with h | h <;> simp [h]
  · simp [getBidAsk, hc]

/-- Counterexample to C7 as stated: on an empty book, `OrderBook::GetBidAsk`
does not fail with the EmptyBook error (it has no check at all). -/
theorem get_bid_ask_no_empty_check_cex :
    getBidAsk ⟨"B1", [], []⟩ = .undefinedFront ∧
    getBidAsk ⟨"B1", [], []⟩ ≠ .emptyBookError :=
  ⟨rfl, by decide⟩

/-- Witness for C7 (amended) on a concrete book with an empty bid stack. -/
theorem empty_book_error_witness :
    ((⟨"B2", [], [⟨100, 1, .OFFER⟩]⟩ : OrderBook).bidStack = [] ∨
      (⟨"B2", [], [⟨100, 1, .OFFER⟩]⟩ : OrderBook).offerStack = []) ∧
    getBestBidOffer ⟨"B2", [], [⟨100, 1, .OFFER⟩]⟩ = .emptyBookError ∧
    getBidAsk ⟨"B2", [], [⟨100, 1, .OFFER⟩]⟩ = .undefinedFront :=
  ⟨Or.inl rfl,
    empty_book_error_only_checked_entry _ (Or.inl rfl)⟩

/-! ## Depth aggregation theorems -/

theorem foldl_orders_pricePairs (orders : List Order) (acc : List (ℚ × ℤ)) :
    orders.foldl (fun acc o => mapAccum acc o.price o.quantity) acc =
      (pricePairs orders).foldl (fun a e => mapAccum a e.1 e.2) acc := by
  induction orders generalizing acc with
  | nil => rfl
  | cons o rest ih =>
    simp only [pricePairs, List.map_cons, List.foldl_cons]
    exact ih _

theorem pricePairs_of_mk (A : List (ℚ × ℤ)) (ty : PricingSide) :
    pricePairs (A.map (fun pq => (⟨pq.1, pq.2, ty⟩ : Order))) = A := by
  simp only [pricePairs, List.map_map]
  have : ((fun o => (o.price, o.quantity)) ∘
      fun pq : ℚ × ℤ => (⟨pq.1, pq.2, ty⟩ : Order)) = id := by
    funext pq
    simp
  rw [this, List.map_id]

theorem aggregateOrders_idem (l : List Order) (ty : PricingSide) :
    aggregateOrders (aggregateOrders l ty) ty = aggregateOrders l ty := by
  simp only [aggregateOrders, foldl_orders_pricePairs]
  rw [pricePairs_of_mk]
  rw [foldAccum_fresh _ [] (keysOf_nodup_foldAccum _ [] (by simp [keysOf_nil]))
    (by simp [keysOf_nil])]
  simp

/-- C10: the depth aggregation (`MarketDataService::AggregateOrders` applied
to both sides by `AggregateDepth`) is idempotent: applying it twice yields,
up to reordering, the same set of (price, summed-quantity) pairs on each side
as applying it once. -/
theorem aggregate_depth_idempotent (book : OrderBook) (p : ℚ) (q : ℤ) :
    ((p, q) ∈ pricePairs (aggregateDepthPure (aggregateDepthPure book)).bidStack ↔
      (p, q) ∈ pricePairs (aggregateDepthPure book).bidStack) ∧
    ((p, q) ∈ pricePairs (aggregateDepthPure (aggregateDepthPure book)).offerStack ↔
      (p, q) ∈ pricePairs (aggregateDepthPure book).offerStack) := by
  constructor
  · simp only [aggregateDepthPure, aggregateOrders_idem]
  · simp only [aggregateDepthPure, aggregateOrders_idem]

/-! ## Position netting theorems -/

theorem lookupKey_mem {K V : Type} [DecidableEq K]
    (m : List (K × V)) (k : K) (v : V) (h : lookupKey m k = some v) :
    (k, v) ∈ m := by
  induction m with
  | nil => simp [lookupKey] at h
  | cons e rest ih =>
    obtain ⟨k0, v0⟩ := e
    rw [lookupKey] at h
    by_cases h0 : k0 = k
    · rw [if_pos h0] at h
      subst h0
      simp only [Option.some.injEq] at h
      subst h
      exact List.mem_cons_self _ _
    · rw [if_neg h0] at h
      exact List.mem_cons_of_mem _ (ih h)

theorem mem_upsertKey {K V : Type} [DecidableEq K]
    (m : List (K × V)) (k : K) (v : V) :
    ∀ e ∈ upsertKey m k v, e = (k, v) ∨ e ∈ m := by
  induction m with
  | nil =>
    intro e he
    simp [upsertKey] at he
    exact Or.inl he
  | cons e0 rest ih =>
    obtain ⟨k0, v0⟩ := e0
    intro e he
    by_cases h0 : k0 = k
    · subst h0
      rw [upsertKey, if_pos rfl] at he
      rcases List.mem_cons.mp he with rfl | he2
      · exact Or.inl rfl
      · exact Or.inr (List.mem_cons_of_mem _ he2)
    · rw [upsertKey, if_neg h0] at he
      rcases List.mem_cons.mp he with rfl | he2
      · exact Or.inr (List.mem_cons_self _ _)
      · rcases ih e he2 with h | h
        · exact Or.inl h
        · exact Or.inr (List.mem_cons_of_mem _ h)

theorem updatePositionFromTrade_empty (t : Trade) :
    updatePositionFromTrade t ⟨t.productId, []⟩ =
      ⟨t.productId, [(t.book, signedQty t)]⟩ := by
  rcases ht : t.side <;> simp [updatePositionFromTrade, signedQty, ht, mapAccum]

theorem storeBookQty_addTrade (s : List (String × Position)) (t : Trade)
    (hok : ∀ e ∈ s, (keysOf e.2.positions).Nodup) (pid book : String) :
    storeBookQty (positionAddTrade s t).1 pid book =
      storeBookQty s pid book +
        (if t.productId = pid ∧ t.book = book then signedQty t else 0) := by
  rw [positionAddTrade, updatePositionFromTrade_empty]
  cases hex : lookupKey s t.productId with
  | none =>
    by_cases hp : t.productId = pid
    · subst hp
      simp only [storeBookQty, lookupKey_upsertKey_self, hex, getPosition]
      by_cases hbk : t.book = book
      · simp [lookupKey, hbk]
      · simp [lookupKey, hbk]
    · simp only [storeBookQty,
        lookupKey_upsertKey_other s t.productId pid _ (Ne.symm hp)]
      simp [hp]
  | some existing =>
    have hnd : (keysOf existing.positions).Nodup :=
      hok (t.productId, existing) (lookupKey_mem s t.productId existing hex)
    by_cases hp : t.productId = pid
    · subst hp
      simp only [storeBookQty, mergePositions, lookupKey_upsertKey_self, hex,
        getPosition]
      rw [lookupKey_foldAccum existing.positions [(t.book, signedQty t)] book,
        sumAt_eq_lookup existing.positions book hnd]
      by_cases hbk : t.book = book
      · simp [lookupKey, hbk]
        ring
      · simp [lookupKey, hbk]
    · simp only [storeBookQty,
        lookupKey_upsertKey_other s t.productId pid _ (Ne.symm hp)]
      simp [hp]

theorem storeAggregate_addTrade (s : List (String × Position)) (t : Trade)
    (pid : String) :
    storeAggregate (positionAddTrade s t).1 pid =
      storeAggregate s pid + (if t.productId = pid then signedQty t else 0) := by
  rw [positionAddTrade, updatePositionFromTrade_empty]
  cases hex : lookupKey s t.productId with
  | none =>
    by_cases hp : t.productId = pid
    · subst hp
      simp only [storeAggregate, lookupKey_upsertKey_self, hex]
      simp [getAggregatePosition, sumVals]
    · simp only [storeAggregate,
        lookupKey_upsertKey_other s t.productId pid _ (Ne.symm hp)]
      simp [hp]
  | some existing =>
    by_cases hp : t.productId = pid
    · subst hp
      simp only [storeAggregate, mergePositions, lookupKey_upsertKey_self, hex,
        getAggregatePosition]
      rw [sumVals_foldAccum existing.positions [(t.book, signedQty t)]]
      simp [sumVals]
      ring
    · simp only [storeAggregate,
        lookupKey_upsertKey_other s t.productId pid _ (Ne.symm hp)]
      simp [hp]

theorem storeOK_addTrade (s : List (String × Position)) (t : Trade)
    (hok : ∀ e ∈ s, (keysOf e.2.positions).Nodup) :
    ∀ e ∈ (positionAddTrade s t).1, (keysOf e.2.positions).Nodup := by
  rw [positionAddTrade, updatePositionFromTrade_empty]
  cases hex : lookupKey s t.productId with
  | none =>
    intro e he
    rcases mem_upsertKey s t.productId _ e he with rfl | he2
    · simp [keysOf_cons, keysOf_nil]
    · exact hok e he2
  | some existing =>
    intro e he
    rcases mem_upsertKey s t.productId _ e he with rfl | he2
    · simp only [mergePositions]
      exact keysOf_nodup_foldAccum existing.positions [(t.book, signedQty t)]
        (by simp [keysOf_cons, keysOf_nil])
    · exact hok e he2

/-- C5: after `PositionService::AddTrade` has processed any sequence of
trades, every product's book-level quantity (as observed through the stored
position) equals the sum of signed trade quantities (+quantity on BUY,
-quantity on SELL) of the trades on that book for that product, and the
aggregate position (`GetAggregatePosition`, the sum of all book-level
quantities of the stored record) equals the total signed quantity of all that
product's trades — in every reachable state, even though each update replaces
the stored record wholesale after merging the prior record's books into the
fresh per-trade record. -/
theorem position_netting_invariant (ts : List Trade) (pid book : String) :
    storeBookQty (processTrades ts) pid book = signedBookSum pid book ts ∧
    storeAggregate (processTrades ts) pid = signedTotal pid ts := by
  suffices h : ∀ s : List (String × Position),
      (∀ e ∈ s, (keysOf e.2.positions).Nodup) →
      storeBookQty (ts.foldl (fun s t => (positionAddTrade s t).1) s) pid book =
        storeBookQty s pid book + signedBookSum pid book ts ∧
      storeAggregate (ts.foldl (fun s t => (positionAddTrade s t).1) s) pid =
        storeAggregate s pid + signedTotal pid ts by
    have h0 := h [] (by simp)
    rw [processTrades]
    simpa [storeBookQty, storeAggregate, lookupKey] using h0
  induction ts with
  | nil =>
    intro s hok
    simp [signedBookSum, signedTotal]
  | cons t rest ih =>
    intro s hok
    rw [List.foldl_cons]
    obtain ⟨h1, h2⟩ := ih (positionAddTrade s t).1 (storeOK_addTrade s t hok)
    rw [h1, h2, storeBookQty_addTrade s t hok, storeAggregate_addTrade s t,
      signedBookSum, signedTotal]
    constructor <;> ring

/-! ## Risk theorems -/

/-- Counterexample to C1 as stated: after two opposite trades of sizes
a = 100 and b = 30 on the same book of product 91282CJL6 (static factor
0.01), the stored/emitted PV01 record has quantity 70 = a - b but value
0.01 — the bare static factor — not 0.01 × 70 as the claim requires. -/
theorem pv01_value_not_scaled_cex :
    processTrades
      [⟨"91282CJL6", "T1", 100, "TRSY1", 100, .BUY⟩,
        ⟨"91282CJL6", "T2", 100, "TRSY1", 30, .SELL⟩] =
      [("91282CJL6", ⟨"91282CJL6", [("TRSY1", 70)]⟩)] ∧
    (riskAddPosition [] ⟨"91282CJL6", [("TRSY1", 70)]⟩).2.quantity = 70 ∧
    (riskAddPosition [] ⟨"91282CJL6", [("TRSY1", 70)]⟩).2.pv01 = 1/100 ∧
    (riskAddPosition [] ⟨"91282CJL6", [("TRSY1", 70)]⟩).2.pv01 ≠
      calculatePV01 "91282CJL6" * 70 := by
  refine ⟨?_, ?_, ?_, ?_⟩
  · decide
  · decide
  · simp [riskAddPosition, calculatePV01]
  · simp [riskAddPosition, calculatePV01]

/-- C1 (amended): every position update processed by
`RiskService::AddPosition` stores and emits a PV01 record whose value is the
bare static per-product factor `calculatePV01(productId)` (not multiplied by
the position) and whose quantity is the position's aggregate quantity; in
particular, after two opposite trades of sizes a and b (a > b) on the same
book the emitted record has quantity a - b and value equal to the static
factor. (The factor × quantity product appears only in
`RiskService::GetBucketedRisk`.) -/
theorem risk_add_position_factor_and_aggregate
    (pvs : List (String × PV01)) (position : Position) (pid book : String)
    (price : ℚ) (a b : ℤ) (_hab : b < a) :
    ((riskAddPosition pvs position).2.pv01 = calculatePV01 position.productId ∧
      (riskAddPosition pvs position).2.quantity = getAggregatePosition position ∧
      lookupKey (riskAddPosition pvs position).1 position.productId =
        some (riskAddPosition pvs position).2) ∧
    (∃ pos2,
      lookupKey (processTrades
        [⟨pid, "T1", price, book, a, .BUY⟩, ⟨pid, "T2", price, book, b, .SELL⟩])
        pid = some pos2 ∧
      (riskAddPosition pvs pos2).2.quantity = a - b ∧
      (riskAddPosition pvs pos2).2.pv01 = calculatePV01 pid) := by
  refine ⟨⟨rfl, rfl, ?_⟩, ?_⟩
  · simp [riskAddPosition, lookupKey_upsertKey_self]
  · refine ⟨⟨pid, [(book, -b + a)]⟩, ?_, ?_, rfl⟩
    · simp [processTrades, positionAddTrade, updatePositionFromTrade, signedQty,
        mergePositions, mapAccum, lookupKey, upsertKey]
    · simp [riskAddPosition, getAggregatePosition, sumVals]
      ring

/-- Witness for C1 (amended) at a concrete position and trade pair. -/
theorem risk_add_position_witness :
    (30 : ℤ) < 100 ∧
    (((riskAddPosition [] ⟨"91282CJK8", [("TRSY1", 5)]⟩).2.pv01 =
        calculatePV01 "91282CJK8" ∧
      (riskAddPosition [] ⟨"91282CJK8", [("TRSY1", 5)]⟩).2.quantity =
        getAggregatePosition ⟨"91282CJK8", [("TRSY1", 5)]⟩ ∧
      lookupKey (riskAddPosition [] ⟨"91282CJK8", [("TRSY1", 5)]⟩).1
        "91282CJK8" =
        some (riskAddPosition [] ⟨"91282CJK8", [("TRSY1", 5)]⟩).2) ∧
    (∃ pos2,
      lookupKey (processTrades
        [⟨"91282CJL6", "T1", 100, "TRSY1", 100, .BUY⟩,
          ⟨"91282CJL6", "T2", 100, "TRSY1", 30, .SELL⟩]) "91282CJL6" =
        some pos2 ∧
      (riskAddPosition [] pos2).2.quantity = 100 - 30 ∧
      (riskAddPosition [] pos2).2.pv01 = calculatePV01 "91282CJL6")) :=
  ⟨by decide,
    risk_add_position_factor_and_aggregate [] ⟨"91282CJK8", [("TRSY1", 5)]⟩
      "91282CJL6" "TRSY1" 100 100 30 (by decide)⟩

/-! ## Algorithmic execution theorems -/

theorem determineOrderSide_alternates (n : ℕ) :
    determineOrderSide (n + 1) ≠ determineOrderSide n := by
  rw [determineOrderSide, determineOrderSide]
  by_cases h : n % 2 = 0
  · rw [if_pos h, if_neg (by omega)]
    decide
  · rw [if_neg h, if_pos (by omega)]
    decide

/-- Counterexample to C4 as stated: on the first call the service crosses a
zero spread on a 99.5/99.5 book and emits a BID order at the book's best
(price 99.5, quantity 1000); on the second call, with a book whose best bid
and offer are both 98, the emitted OFFER order still takes price 99.5 and
quantity 500 from the first call's cached `GetBidAsk` result, not from the
delivered book's best offer (price 98, quantity 600). -/
theorem algo_execute_stale_bbo_cex :
    algoExecuteOrder none ⟨0, []⟩
      ⟨"P", [⟨199/2, 1000, .BID⟩], [⟨199/2, 500, .OFFER⟩]⟩ "ID1" =
      some (some ⟨⟨199/2, 1000, .BID⟩, ⟨199/2, 500, .OFFER⟩⟩,
        ⟨1, [("P", ⟨"P", .BID, "ID1", .MARKET, 199/2, 1000, 0, "", false⟩)]⟩,
        [⟨"P", .BID, "ID1", .MARKET, 199/2, 1000, 0, "", false⟩]) ∧
    algoExecuteOrder (some ⟨⟨199/2, 1000, .BID⟩, ⟨199/2, 500, .OFFER⟩⟩)
      ⟨1, [("P", ⟨"P", .BID, "ID1", .MARKET, 199/2, 1000, 0, "", false⟩)]⟩
      ⟨"P", [⟨98, 700, .BID⟩], [⟨98, 600, .OFFER⟩]⟩ "ID2" =
      some (some ⟨⟨199/2, 1000, .BID⟩, ⟨199/2, 500, .OFFER⟩⟩,
        ⟨2, [("P", ⟨"P", .OFFER, "ID2", .MARKET, 199/2, 500, 0, "", false⟩)]⟩,
        [⟨"P", .OFFER, "ID2", .MARKET, 199/2, 500, 0, "", false⟩]) ∧
    getBidAsk ⟨"P", [⟨98, 700, .BID⟩], [⟨98, 600, .OFFER⟩]⟩ =
      .ok ⟨⟨98, 700, .BID⟩, ⟨98, 600, .OFFER⟩⟩ ∧
    (199 : ℚ)/2 ≠ 98 := by
  refine ⟨?_, ?_, ?_, by norm_num⟩
  · norm_num [algoExecuteOrder, getBidAskCall, bboCore, bestBidScan,
      bestOfferScan, determineOrderSide, createExecutionOrder, upsertKey]
  · norm_num [algoExecuteOrder, getBidAskCall, bboCore, bestBidScan,
      bestOfferScan, determineOrderSide, createExecutionOrder, upsertKey]
    decide
  · norm_num [getBidAsk, bboCore, bestBidScan, bestOfferScan]

/-- C4 (amended): on every order book update, `AlgoExecuteOrder` evaluates
the spread condition and picks price and quantity from the bid/offer pair
returned by `OrderBook::GetBidAsk` — which is the delivered book's own best
bid/offer only on the first invocation, and the first invocation's cached
pair on every later one. If that pair's offer price minus bid price is at
most 1/128, exactly one market, non-child execution order carrying the
freshly generated id is emitted through the execution store, with price and
quantity taken verbatim from that pair on the side indicated by the toggle
(BID when the qualifying-call counter is even, so BID first, then
alternating), and the toggle advances; otherwise nothing is emitted and the
service state is unchanged. -/
theorem algo_execute_order_cached_behaviour
    (cache : Option BidOffer) (st : AlgoState) (book : OrderBook)
    (freshId : String) (hb : book.bidStack ≠ []) (ho : book.offerStack ≠ []) :
    ∃ bo, getBidAskCall cache book = (.ok bo, some bo) ∧
      (cache = none → bboCore book = some bo) ∧
      (∀ v, cache = some v → bo = v) ∧
      determineOrderSide 0 = .BID ∧
      (∀ n, determineOrderSide (n + 1) ≠ determineOrderSide n) ∧
      (bo.offerOrder.price - bo.bidOrder.price ≤ 1/128 →
        ∃ ord, algoExecuteOrder cache st book freshId =
            some (some bo,
              ⟨st.sideCount + 1, upsertKey st.algoExe book.productId ord⟩,
              [ord]) ∧
          ord.productId = book.productId ∧
          ord.side = determineOrderSide st.sideCount ∧
          ord.orderId = freshId ∧
          ord.orderType = .MARKET ∧
          ord.isChildOrder = false ∧
          ord.hiddenQuantity = 0 ∧
          ord.price = (if ord.side = .BID then bo.bidOrder.price
            else bo.offerOrder.price) ∧
          ord.visibleQuantity = (if ord.side = .BID then bo.bidOrder.quantity
            else bo.offerOrder.quantity)) ∧
      (¬ bo.offerOrder.price - bo.bidOrder.price ≤ 1/128 →
        algoExecuteOrder cache st book freshId = some (some bo, st, [])) := by
  have hfr : ∃ fr, bboCore book = some fr := by
    rcases hbs : book.bidStack with _ | ⟨b0, bs⟩
    · exact absurd hbs hb
    rcases hos : book.offerStack with _ | ⟨a0, as⟩
    · exact absurd hos ho
    exact ⟨⟨bestBidScan b0 (b0 :: bs), bestOfferScan a0 (a0 :: as)⟩,
      by simp [bboCore, hbs, hos]⟩
  obtain ⟨fr, hcore⟩ := hfr
  have hcall : ∃ bo, getBidAskCall cache book = (.ok bo, some bo) ∧
      (cache = none → bo = fr) ∧ (∀ v, cache = some v → bo = v) := by
    cases cache with
    | none =>
      refine ⟨fr, by simp [getBidAskCall, hcore], fun _ => rfl, ?_⟩
      intro v hv
      exact absurd hv (by simp)
    | some v =>
      refine ⟨v, by simp [getBidAskCall, hcore], by simp, ?_⟩
      intro v' hv
      exact Option.some.inj hv
  obtain ⟨bo, hgba, hnone, hsome⟩ := hcall
  refine ⟨bo, hgba, fun hc => (hnone hc) ▸ hcore, hsome, by decide,
    determineOrderSide_alternates, ?_, ?_⟩
  · intro hspread
    refine ⟨createExecutionOrder book (determineOrderSide st.sideCount) freshId
      (if determineOrderSide st.sideCount = .BID then bo.bidOrder.price
        else bo.offerOrder.price)
      (if determineOrderSide st.sideCount = .BID then bo.bidOrder.quantity
        else bo.offerOrder.quantity), ?_, rfl, rfl, rfl, rfl, rfl, rfl, rfl, rfl⟩
    rw [algoExecuteOrder, hgba]
    simp only []
    rw [if_pos hspread]
  · intro hns
    rw [algoExecuteOrder, hgba]
    simp only []
    rw [if_neg hns]

/-- Witness for C4 (amended) at a concrete cached pair, state and book. -/
theorem algo_execute_order_witness :
    (⟨"P", [⟨99, 800, .BID⟩], [⟨99, 400, .OFFER⟩]⟩ : OrderBook).bidStack ≠ [] ∧
    (⟨"P", [⟨99, 800, .BID⟩], [⟨99, 400, .OFFER⟩]⟩ : OrderBook).offerStack ≠ [] ∧
    (∃ bo, getBidAskCall none ⟨"P", [⟨99, 800, .BID⟩], [⟨99, 400, .OFFER⟩]⟩ =
        (.ok bo, some bo) ∧
      ((none : Option BidOffer) = none →
        bboCore ⟨"P", [⟨99, 800, .BID⟩], [⟨99, 400, .OFFER⟩]⟩ = some bo) ∧
      (∀ v, (none : Option BidOffer) = some v → bo = v) ∧
      determineOrderSide 0 = .BID ∧
      (∀ n, determineOrderSide (n + 1) ≠ determineOrderSide n) ∧
      (bo.offerOrder.price - bo.bidOrder.price ≤ 1/128 →
        ∃ ord, algoExecuteOrder none ⟨0, []⟩
            ⟨"P", [⟨99, 800, .BID⟩], [⟨99, 400, .OFFER⟩]⟩ "IDW" =
            some (some bo, ⟨0 + 1, upsertKey [] "P" ord⟩, [ord]) ∧
          ord.productId = "P" ∧
          ord.side = determineOrderSide 0 ∧
          ord.orderId = "IDW" ∧
          ord.orderType = .MARKET ∧
          ord.isChildOrder = false ∧
          ord.hiddenQuantity = 0 ∧
          ord.price = (if ord.side = .BID then bo.bidOrder.price
            else bo.offerOrder.price) ∧
          ord.visibleQuantity = (if ord.side = .BID then bo.bidOrder.quantity
            else bo.offerOrder.quantity)) ∧
      (¬ bo.offerOrder.price - bo.bidOrder.price ≤ 1/128 →
        algoExecuteOrder none ⟨0, []⟩
          ⟨"P", [⟨99, 800, .BID⟩], [⟨99, 400, .OFFER⟩]⟩ "IDW" =
          some (some bo, ⟨0, []⟩, []))) :=
  ⟨by simp, by simp,
    algo_execute_order_cached_behaviour none ⟨0, []⟩
      ⟨"P", [⟨99, 800, .BID⟩], [⟨99, 400, .OFFER⟩]⟩ "IDW" (by simp) (by simp)⟩

/-! ## Booking bridge theorems -/

theorem determineBookFromCount_cycle (n : ℕ) :
    determineBookFromCount (n + 1) ≠ determineBookFromCount (n + 2) ∧
    determineBookFromCount (n + 1) ≠ determineBookFromCount (n + 3) ∧
    determineBookFromCount (n + 2) ≠ determineBookFromCount (n + 3) ∧
    determineBookFromCount (n + 4) = determineBookFromCount (n + 1) := by
  have hc : n % 3 = 0 ∨ n % 3 = 1 ∨ n % 3 = 2 := by omega
  rcases hc with hc | hc | hc
  · have e1 : (n + 1) % 3 = 1 := by omega
    have e2 : (n + 2) % 3 = 2 := by omega
    have e3 : (n + 3) % 3 = 0 := by omega
    have e4 : (n + 4) % 3 = 1 := by omega
    simp only [determineBookFromCount, e1, e2, e3, e4]
    refine ⟨by decide, by decide, by decide, by trivial⟩
  · have e1 : (n + 1) % 3 = 2 := by omega
    have e2 : (n + 2) % 3 = 0 := by omega
    have e3 : (n + 3) % 3 = 1 := by omega
    have e4 : (n + 4) % 3 = 2 := by omega
    simp only [determineBookFromCount, e1, e2, e3, e4]
    refine ⟨by decide, by decide, by decide, by trivial⟩
  · have e1 : (n + 1) % 3 = 0 := by omega
    have e2 : (n + 2) % 3 = 1 := by omega
    have e3 : (n + 3) % 3 = 2 := by omega
    have e4 : (n + 4) % 3 = 0 := by omega
    simp only [determineBookFromCount, e1, e2, e3, e4]
    refine ⟨by decide, by decide, by decide, by trivial⟩

/-- C6: for every execution order processed by
`ExecutionBookingListener::ProcessAdd`, the booked trade has side SELL when
the order's pricing side is BID and BUY otherwise, quantity equal to visible
plus hidden quantity, price equal to the order's price, and trade id equal to
the order id; the book label is chosen by the incremented call counter modulo
3 over the three fixed labels, so any three consecutive executions get three
pairwise-distinct labels and the fourth reuses the first of those labels. -/
theorem booking_bridge_contra_side_round_robin (count : ℕ)
    (order : ExecutionOrder) :
    (bookingProcessAdd count order).1 = count + 1 ∧
    (bookingProcessAdd count order).2.side =
      (if order.side = .BID then Side.SELL else Side.BUY) ∧
    (bookingProcessAdd count order).2.quantity =
      order.visibleQuantity + order.hiddenQuantity ∧
    (bookingProcessAdd count order).2.price = order.price ∧
    (bookingProcessAdd count order).2.tradeId = order.orderId ∧
    (bookingProcessAdd count order).2.productId = order.productId ∧
    (bookingProcessAdd count order).2.book = determineBookFromCount (count + 1) ∧
    determineBookFromCount (count + 1) ≠ determineBookFromCount (count + 2) ∧
    determineBookFromCount (count + 1) ≠ determineBookFromCount (count + 3) ∧
    determineBookFromCount (count + 2) ≠ determineBookFromCount (count + 3) ∧
    determineBookFromCount (count + 4) = determineBookFromCount (count + 1) :=
  ⟨rfl, rfl, rfl, rfl, rfl, rfl, rfl,
    (determineBookFromCount_cycle count).1,
    (determineBookFromCount_cycle count).2.1,
    (determineBookFromCount_cycle count).2.2.1,
    (determineBookFromCount_cycle count).2.2.2⟩

/-! ## Inquiry lifecycle theorems -/

/-- C8: an inquiry arriving in state RECEIVED resolves within the single
triggering call: the internal listener sets the response price to the fixed
value 100, the inquiry is set to QUOTED and re-published through the listener
chain, then set to DONE and re-published again, so the listeners observe
exactly the RECEIVED original, the QUOTED version and the DONE version in
that order, and the stored inquiry at the end of the call is the DONE version
(with price 100 and all other fields unchanged). Holds for every fuel bound
of the embedded recursion. -/
theorem inquiry_received_resolves_to_done (fuel : ℕ)
    (store : List (String × Inquiry)) (inq : Inquiry)
    (hst : inq.state = .RECEIVED) :
    ∃ sF, inquiryOnMessage (fuel + 4) store inq =
        some (sF, [inq, { inq with price := 100, state := .QUOTED },
          { inq with price := 100, state := .DONE }]) ∧
      lookupKey sF inq.inquiryId =
        some { inq with price := 100, state := .DONE } := by
  refine ⟨upsertKey (upsertKey (upsertKey (upsertKey (upsertKey (upsertKey store
    inq.inquiryId inq) inq.inquiryId { inq with price := 100 }) inq.inquiryId
    { inq with price := 100, state := .QUOTED }) inq.inquiryId
    { inq with price := 100, state := .QUOTED }) inq.inquiryId
    { inq with price := 100, state := .DONE }) inq.inquiryId
    { inq with price := 100, state := .DONE }, ?_, lookupKey_upsertKey_self _ _ _⟩
  simp only [inquiryOnMessage, inquirySendQuote, inquiryPublish, hst,
    lookupKey_upsertKey_self, if_true, reduceIte]
  simp [hst, lookupKey_upsertKey_self]

/-- Witness for C8 at a concrete RECEIVED inquiry on an empty store. -/
theorem inquiry_received_resolves_witness :
    (⟨"I1", "91282CJL6", .BUY, 1000, 99, .RECEIVED⟩ : Inquiry).state =
      .RECEIVED ∧
    (∃ sF, inquiryOnMessage (0 + 4) []
        ⟨"I1", "91282CJL6", .BUY, 1000, 99, .RECEIVED⟩ =
        some (sF, [⟨"I1", "91282CJL6", .BUY, 1000, 99, .RECEIVED⟩,
          ⟨"I1", "91282CJL6", .BUY, 1000, 100, .QUOTED⟩,
          ⟨"I1", "91282CJL6", .BUY, 1000, 100, .DONE⟩]) ∧
      lookupKey sF "I1" =
        some ⟨"I1", "91282CJL6", .BUY, 1000, 100, .DONE⟩) :=
  ⟨rfl, inquiry_received_resolves_to_done 0 []
    ⟨"I1", "91282CJL6", .BUY, 1000, 99, .RECEIVED⟩ rfl⟩

/-- C9: `InquiryService::RejectInquiry` on a stored inquiry sets exactly that
inquiry's state to REJECTED and changes nothing else: the event list is empty
(no listener notification, unlike the quote path), the rejected record keeps
every other field, and every other key of the store is untouched. -/
theorem reject_inquiry_frame (store : List (String × Inquiry))
    (inquiryId : String) (inq : Inquiry)
    (h : lookupKey store inquiryId = some inq) :
    rejectInquiry store inquiryId =
      some (upsertKey store inquiryId { inq with state := .REJECTED }, []) ∧
    lookupKey (upsertKey store inquiryId { inq with state := .REJECTED })
      inquiryId = some { inq with state := .REJECTED } ∧
    ∀ id2, id2 ≠ inquiryId →
      lookupKey (upsertKey store inquiryId { inq with state := .REJECTED }) id2 =
        lookupKey store id2 := by
  refine ⟨by simp [rejectInquiry, h], lookupKey_upsertKey_self _ _ _, ?_⟩
  intro id2 hne
  exact lookupKey_upsertKey_other store inquiryId id2 _ hne

/-- Witness for C9 at a concrete two-entry store. -/
theorem reject_inquiry_frame_witness :
    lookupKey [("I2", (⟨"I2", "91282CJK8", .SELL, 5, 101, .RECEIVED⟩ : Inquiry)),
      ("I3", (⟨"I3", "91282CJL6", .BUY, 7, 102, .DONE⟩ : Inquiry))] "I2" =
      some ⟨"I2", "91282CJK8", .SELL, 5, 101, .RECEIVED⟩ ∧
    (rejectInquiry [("I2", (⟨"I2", "91282CJK8", .SELL, 5, 101, .RECEIVED⟩ : Inquiry)),
        ("I3", (⟨"I3", "91282CJL6", .BUY, 7, 102, .DONE⟩ : Inquiry))] "I2" =
      some (upsertKey [("I2", (⟨"I2", "91282CJK8", .SELL, 5, 101, .RECEIVED⟩ : Inquiry)),
          ("I3", (⟨"I3", "91282CJL6", .BUY, 7, 102, .DONE⟩ : Inquiry))] "I2"
        ⟨"I2", "91282CJK8", .SELL, 5, 101, .REJECTED⟩, []) ∧
      lookupKey (upsertKey [("I2", (⟨"I2", "91282CJK8", .SELL, 5, 101, .RECEIVED⟩ : Inquiry)),
          ("I3", (⟨"I3", "91282CJL6", .BUY, 7, 102, .DONE⟩ : Inquiry))] "I2"
        ⟨"I2", "91282CJK8", .SELL, 5, 101, .REJECTED⟩) "I2" =
        some ⟨"I2", "91282CJK8", .SELL, 5, 101, .REJECTED⟩ ∧
      ∀ id2, id2 ≠ "I2" →
        lookupKey (upsertKey [("I2", (⟨"I2", "91282CJK8", .SELL, 5, 101, .RECEIVED⟩ : Inquiry)),
            ("I3", (⟨"I3", "91282CJL6", .BUY, 7, 102, .DONE⟩ : Inquiry))] "I2"
          ⟨"I2", "91282CJK8", .SELL, 5, 101, .REJECTED⟩) id2 =
          lookupKey [("I2", (⟨"I2", "91282CJK8", .SELL, 5, 101, .RECEIVED⟩ : Inquiry)),
            ("I3", (⟨"I3", "91282CJL6", .BUY, 7, 102, .DONE⟩ : Inquiry))] id2) :=
  ⟨rfl, reject_inquiry_frame _ "I2" ⟨"I2", "91282CJK8", .SELL, 5, 101, .RECEIVED⟩ rfl⟩

end TradingSystem
